import Mathlib

/-!
# QueueProcessing: the random number producer

A shallow embedding of `projects/random_number_generator/src/main.go`:
the value generator `randomInt`, the configuration check `validate`, the
broker list construction (`splitComma`, `newWriter`), the worker
`producerThread` as a step machine driven by an environment oracle, and
the coordinator `main` as a trace of effects.

Go `int` is 64 bits wide here; signed values are mathematical integers
reduced with `wrapInt64`, unsigned ones are naturals reduced modulo `2^64`.
-/

namespace QueueProcessing

/-! ## Machine integers -/

/-- Number of values of a 64-bit word, `2^64`. -/
def word64 : Nat := 18446744073709551616

/-- Smallest Go `int` (`math.MinInt64`). -/
def minInt64 : Int := -9223372036854775808

/-- Largest Go `int` (`math.MaxInt64`). -/
def maxInt64 : Int := 9223372036854775807

/-- Membership in the range of a Go `int`. -/
def isInt64 (x : Int) : Prop := minInt64 ≤ x ∧ x ≤ maxInt64

instance (x : Int) : Decidable (isInt64 x) := by
  unfold isInt64
  exact inferInstance

/-- Two's complement reduction of a mathematical integer to a Go `int`. -/
def wrapInt64 (x : Int) : Int :=
  (x + 9223372036854775808) % 18446744073709551616 - 9223372036854775808

/-- Conversion `uint64(x)` of a Go `int`. -/
def toUint64 (x : Int) : Nat := (x % 18446744073709551616).toNat

/-- Conversion `int(n)` of a Go `uint64`. -/
def toInt64 (n : Nat) : Int := wrapInt64 (n : Int)

/-- Go's `%` on signed integers: the remainder of truncated division. -/
def goRem (a b : Int) : Int := wrapInt64 (Int.tmod a b)

/-! ## Run-time panics -/

/-- The run-time panics the embedded code can raise. -/
inductive Panic where
  | integerDivideByZero
  | nonPositiveTickerInterval
  | nilPointerDereference
  deriving DecidableEq, Repr

deriving instance DecidableEq for Except

/-! ## Value generator -/

/-- Eight bytes filled by a successful `rand.Read`. -/
structure EntropyBytes where
  b0 : Fin 256
  b1 : Fin 256
  b2 : Fin 256
  b3 : Fin 256
  b4 : Fin 256
  b5 : Fin 256
  b6 : Fin 256
  b7 : Fin 256
  deriving DecidableEq, Repr

/-- The word `binary.LittleEndian.Uint64` decodes from eight bytes. -/
def littleEndianUint64 (b : EntropyBytes) : Nat :=
  b.b0.val + 256 * (b.b1.val + 256 * (b.b2.val + 256 * (b.b3.val + 256 * (b.b4.val
    + 256 * (b.b5.val + 256 * (b.b6.val + 256 * b.b7.val))))))

/-- Outcome of the entropy read inside `randomInt`: eight bytes, or a read
error together with the value `time.Now().UnixNano()` then yields. -/
inductive Entropy where
  | bytes (b : EntropyBytes)
  | readError (unixNano : Int)
  deriving DecidableEq, Repr

/-- The tail of `randomInt` once the 64-bit word `n` has been decoded
(`main.go` line 35): `min + int(n % uint64(max-min+1))`. -/
def randomIntWord (min max : Int) (n : Nat) : Except Panic Int :=
  let span := toUint64 (wrapInt64 (wrapInt64 (max - min) + 1))
  if span = 0 then Except.error Panic.integerDivideByZero
  else Except.ok (wrapInt64 (min + toInt64 (n % span)))

/-- The fallback of `randomInt` on a clock reading `t` (`main.go` line 32):
`min + int(t % int64(max-min+1))`. -/
def randomIntClock (min max : Int) (t : Int) : Except Panic Int :=
  let span := wrapInt64 (wrapInt64 (max - min) + 1)
  if span = 0 then Except.error Panic.integerDivideByZero
  else Except.ok (wrapInt64 (min + goRem t span))

/-- Embedding of `randomInt` (`main.go` lines 25-36). -/
def randomInt (min max : Int) (e : Entropy) : Except Panic Int :=
  if max ≤ min then Except.ok min
  else
    match e with
    | Entropy.readError t => randomIntClock min max t
    | Entropy.bytes b => randomIntWord min max (littleEndianUint64 b)

/-! ## Configuration -/

/-- A Go string: a finite sequence of bytes. -/
abbrev GoString := List (Fin 256)

/-- The byte `','`. -/
def comma : Fin 256 := 44

/-- Embedding of the struct `config` (`main.go` lines 38-46). -/
structure config where
  brokers : GoString
  topic : GoString
  threads : Int
  pauseSec : Int
  metricsAddr : GoString
  kconfig : GoString
  demo : Bool
  deriving DecidableEq, Repr

/-- Embedding of `validate` (`main.go` lines 105-126); `none` is Go's `nil`
error, `some msg` the error built by `fmt.Errorf`. -/
def validate (cfg : config) : Option String :=
  if cfg.demo then
    if cfg.threads ≤ 0 then some "threads must be > 0"
    else if cfg.pauseSec < 0 then some "pause must be >= 0"
    else none
  else if cfg.brokers = [] ∨ cfg.topic = [] then some "missing required parameters"
  else if cfg.threads ≤ 0 then some "threads must be > 0"
  else if cfg.pauseSec < 0 then some "pause must be >= 0"
  else none

/-! ## Broker list -/

/-- The slice expression `s[lo:hi]`. -/
def slice (s : GoString) (lo hi : Nat) : GoString := (s.drop lo).take (hi - lo)

/-- One pass of the loop body of `splitComma` at index `i` (`main.go` lines
151-154); the state is `(parts, start)`. -/
def splitCommaBody (s : GoString) (st : List GoString × Nat) (i : Nat) : List GoString × Nat :=
  if s.get? i = some comma then (st.1 ++ [slice s st.2 i], i + 1) else st

/-- Embedding of `splitComma` (`main.go` lines 147-158). -/
def splitComma (s : GoString) : List GoString :=
  let st := (List.range s.length).foldl (splitCommaBody s) ([], 0)
  st.1 ++ [slice s st.2 s.length]

/-- The fields of `kafka.Writer` that `newWriter` computes from its arguments. -/
structure Writer where
  addr : List GoString
  topic : GoString
  deriving DecidableEq, Repr

/-- Embedding of `newWriter` (`main.go` lines 128-145): the non-empty fields
of the comma separated list become the address list. -/
def newWriter (brokersCSV topic : GoString) : Writer :=
  Writer.mk ((splitComma brokersCSV).filter (fun b => decide (b ≠ []))) topic

/-! ## Metrics registry -/

/-- The process-wide metrics of `main.go` lines 48-79 that the workers touch.
The Prometheus counters are natural numbers that `Inc` raises by one,
`totalWritten` is a `uint64`, and the histogram is the list of its observations
(elapsed nanoseconds, newest first). -/
structure Metrics where
  totalWritten : Nat
  numbersWritten : Nat
  threadStarts : Nat
  threadEnds : Nat
  writeErrors : Nat
  writeLatency : List Nat
  deriving DecidableEq, Repr

/-- The registry at process start. -/
def Metrics.zero : Metrics := Metrics.mk 0 0 0 0 0 []

/-- The call `atomic.AddUint64(&totalWritten, 1)`. -/
def addUint64One (x : Nat) : Nat := (x + 1) % 18446744073709551616

/-! ## Worker -/

/-- Arguments of one `producerThread` call: its id, the shared writer (`nil` is
`none`), the pause (a `time.Duration` in nanoseconds) and the demo flag. -/
structure WorkerArgs where
  id : Int
  w : Option Writer
  pause : Int
  demo : Bool
  deriving DecidableEq, Repr

/-- Externally visible effects of a worker, apart from the metrics. -/
inductive Effect where
  | logStart (id : Int)
  | logEnd (id : Int)
  | printValue (id : Int) (val : Int)
  | writeMessages (id : Int) (val : Int) (ok : Bool)
  | logWriteError (id : Int)
  | tickerStop (id : Int)
  | wgDone (id : Int)
  deriving DecidableEq, Repr

/-- Program points of `producerThread` (`main.go` lines 160-202). -/
inductive PC where
  /-- Line 161: the call has not run yet. -/
  | entry
  /-- Line 169: about to call `time.NewTicker(pause)`. -/
  | newTicker
  /-- Line 172: the cancellation check at the top of the loop. -/
  | loopTop
  /-- Lines 179-193: generate one value and print or send it. -/
  | produce
  /-- Line 196: wait for cancellation or the next tick. -/
  | pauseWait
  /-- The function is leaving: its deferred calls are pending. `ticker` tells
  whether `defer ticker.Stop()` was registered, `cause` is the panic in flight. -/
  | unwind (ticker : Bool) (cause : Option Panic)
  /-- The call has returned normally. -/
  | returned
  /-- The goroutine died of a panic, which terminates the process. -/
  | panicked (cause : Panic)
  deriving DecidableEq, Repr

/-- What the environment decides for one step of a worker. -/
structure Oracle where
  /-- The cancellation token is signalled when a `select` looks at it. -/
  ctxDone : Bool
  /-- The ticker channel is ready and the pause `select` takes that case. -/
  tickWins : Bool
  /-- Outcome of the entropy read of `randomInt`. -/
  entropy : Entropy
  /-- The call `w.WriteMessages` returns `nil`. -/
  sendOk : Bool
  /-- Nanoseconds that `time.Since(start)` measures around the send. -/
  latency : Nat
  deriving DecidableEq, Repr

/-- State a worker acts on: its program point, the shared metrics and the
effects so far (newest first). -/
structure WState where
  pc : PC
  metrics : Metrics
  log : List Effect
  deriving DecidableEq, Repr

/-- The call `time.NewTicker(d)`, which panics unless `d` is positive. -/
def newTicker (d : Int) : Except Panic Unit :=
  if d ≤ 0 then Except.error Panic.nonPositiveTickerInterval else Except.ok ()

/-- The non-demo branch of the loop body (`main.go` lines 183-192) for value
`val` on writer `w`. -/
def sendValue (a : WorkerArgs) (o : Oracle) (val : Int) (s : WState) : WState :=
  match a.w with
  | none => { s with pc := PC.unwind true (some Panic.nilPointerDereference) }
  | some _ =>
    let m := s.metrics
    if o.sendOk then
      { pc := PC.pauseWait
        metrics := { m with numbersWritten := m.numbersWritten + 1
                            totalWritten := addUint64One m.totalWritten
                            writeLatency := o.latency :: m.writeLatency }
        log := Effect.writeMessages a.id val true :: s.log }
    else
      { pc := PC.pauseWait
        metrics := { m with writeErrors := m.writeErrors + 1
                            writeLatency := o.latency :: m.writeLatency }
        log := Effect.logWriteError a.id :: Effect.writeMessages a.id val false :: s.log }

/-- The deferred calls of `producerThread`, run last registered first:
`ticker.Stop()` when registered, the closure of lines 164-167, `wg.Done()`. -/
def runDeferred (a : WorkerArgs) (ticker : Bool) (cause : Option Panic) (s : WState) : WState :=
  let log1 := if ticker then Effect.tickerStop a.id :: s.log else s.log
  let m := s.metrics
  { pc := match cause with
          | none => PC.returned
          | some p => PC.panicked p
    metrics := { m with threadEnds := m.threadEnds + 1 }
    log := Effect.wgDone a.id :: Effect.logEnd a.id :: log1 }

/-- One step of `producerThread` (`main.go` lines 160-202) from program point
`s.pc` under the environment decision `o`. -/
def step (a : WorkerArgs) (o : Oracle) (s : WState) : WState :=
  match s.pc with
  | PC.entry =>
    let m := s.metrics
    { pc := PC.newTicker
      metrics := { m with threadStarts := m.threadStarts + 1 }
      log := Effect.logStart a.id :: s.log }
  | PC.newTicker =>
    match newTicker a.pause with
    | Except.error p => { s with pc := PC.unwind false (some p) }
    | Except.ok _ => { s with pc := PC.loopTop }
  | PC.loopTop =>
    if o.ctxDone then { s with pc := PC.unwind true none }
    else { s with pc := PC.produce }
  | PC.produce =>
    match randomInt 1 10000 o.entropy with
    | Except.error p => { s with pc := PC.unwind true (some p) }
    | Except.ok val =>
      if a.demo then
        { s with pc := PC.pauseWait, log := Effect.printValue a.id val :: s.log }
      else sendValue a o val s
  | PC.pauseWait =>
    if o.ctxDone && !o.tickWins then { s with pc := PC.unwind true none }
    else { s with pc := PC.loopTop }
  | PC.unwind ticker cause => runDeferred a ticker cause s
  | PC.returned => s
  | PC.panicked _ => s

/-- A worker run: one step per environment decision. -/
def run (a : WorkerArgs) (os : List Oracle) (s : WState) : WState :=
  os.foldl (fun st o => step a o st) s

/-- The state in which `go producerThread(...)` leaves a new worker. -/
def WState.init (m : Metrics) : WState := WState.mk PC.entry m []

/-! ## Coordinator -/

/-- The pause `time.Duration(cfg.pauseSec) * time.Second` of `main.go` line 234,
in nanoseconds. -/
def pauseOf (cfg : config) : Int := wrapInt64 (cfg.pauseSec * 1000000000)

/-- The writer `main` shares with the workers (`main.go` lines 225-229): `nil`
in demo mode. -/
def writerOf (cfg : config) : Option Writer :=
  if cfg.demo then none else some (newWriter cfg.brokers cfg.topic)

/-- The calls the spawn loop of `main` makes (`main.go` lines 235-237), in
order: `producerThread(ctx, i+1, writer, pause, &wg, cfg.demo)` for
`i = 0, ..., cfg.threads - 1`. -/
def spawnArgs (cfg : config) : List WorkerArgs :=
  (List.range cfg.threads.toNat).map
    (fun i => WorkerArgs.mk (Int.ofNat i + 1) (writerOf cfg) (pauseOf cfg) cfg.demo)

/-- The workers of a process together with the state they share. A worker the
spawn loop has not reached yet stands at `PC.entry` like one not scheduled yet. -/
structure Pool where
  workers : List (WorkerArgs × PC)
  metrics : Metrics
  log : List Effect
  deriving DecidableEq, Repr

/-- A panic has killed one goroutine and with it the process. -/
def Pool.crashed (p : Pool) : Bool :=
  p.workers.any (fun w => match w.2 with
    | PC.panicked _ => true
    | _ => false)

/-- The scheduler lets worker number `ev.1` take one step under `ev.2`; nothing
runs once the process has crashed. -/
def poolStep (p : Pool) (ev : Nat × Oracle) : Pool :=
  if p.crashed then p
  else
    match p.workers.get? ev.1 with
    | none => p
    | some w =>
      let s := step w.1 ev.2 (WState.mk w.2 p.metrics p.log)
      Pool.mk (p.workers.set ev.1 (w.1, s.pc)) s.metrics s.log

/-- An interleaved execution of the pool under a schedule. -/
def poolRun (sched : List (Nat × Oracle)) (p : Pool) : Pool :=
  sched.foldl poolStep p

/-- The pool `main` creates for a configuration, at process start. -/
def startPool (cfg : config) : Pool :=
  Pool.mk ((spawnArgs cfg).map (fun a => (a, PC.entry))) Metrics.zero []

/-- Effects of `main`, in program order. -/
inductive MainEvent where
  | usage
  | exit (code : Int)
  | logStarting
  | startTimeSet
  | serveMetrics
  | newWriter (w : Writer)
  | wgAdd (n : Int)
  | goProducerThread (a : WorkerArgs)
  | awaitSignal
  | logShuttingDown
  | shutdownTimeSet
  | cancel
  | joined
  | deadlineElapsed
  | logTimeout
  | srvShutdown
  | logStopped
  | cancel2
  | writerClose
  deriving DecidableEq, Repr

/-- What `main` observes of the wait for its workers (`main.go` lines 253-257). -/
def waitEvents (joinWins : Bool) : List MainEvent :=
  if joinWins then [MainEvent.joined]
  else [MainEvent.deadlineElapsed, MainEvent.logTimeout]

/-- Embedding of `main` (`main.go` lines 204-265) as the trace of its effects.
`joinWins` tells which case of the `select` at line 253 fires: the join of the
workers (`done`) or the 5 second timer. Deferred calls run at the return, last
registered first. -/
def main (cfg : config) (joinWins : Bool) : List MainEvent :=
  match validate cfg with
  | some _ => [MainEvent.usage, MainEvent.exit 2]
  | none =>
    let startup := [MainEvent.logStarting, MainEvent.startTimeSet, MainEvent.serveMetrics]
    let mkWriter := match writerOf cfg with
      | none => []
      | some w => [MainEvent.newWriter w]
    let deferred1 := match writerOf cfg with
      | none => []
      | some _ => [MainEvent.writerClose]
    let spawn := MainEvent.wgAdd cfg.threads :: (spawnArgs cfg).map MainEvent.goProducerThread
    let signal := [MainEvent.awaitSignal, MainEvent.logShuttingDown,
      MainEvent.shutdownTimeSet, MainEvent.cancel]
    let wait := waitEvents joinWins
    let deferred2 := MainEvent.cancel2 :: deferred1
    startup ++ mkWriter ++ spawn ++ signal ++ wait
      ++ [MainEvent.srvShutdown, MainEvent.logStopped] ++ deferred2

/-! ## Observations used in the statements -/

/-- Number of `WriteMessages` calls in a log whose result is `ok`. -/
def sendCount (ok : Bool) (log : List Effect) : Nat :=
  log.countP (fun e => match e with
    | Effect.writeMessages _ _ b => b == ok
    | _ => false)

/-- The effect is a call of `WriteMessages`. -/
def Effect.isSend : Effect → Bool
  | Effect.writeMessages _ _ _ => true
  | _ => false

/-- The program point lies inside the `for` loop of `producerThread`. -/
def PC.inLoop : PC → Bool
  | PC.loopTop => true
  | PC.produce => true
  | PC.pauseWait => true
  | _ => false

/-- The worker has run `threadStarts.Inc()`. -/
def PC.started : PC → Bool
  | PC.entry => false
  | _ => true

/-- The worker has run its deferred calls, `threadEnds.Inc()` among them. -/
def PC.ended : PC → Bool
  | PC.returned => true
  | PC.panicked _ => true
  | _ => false

/-- No step so far has left the worker on its way to a normal return: it has
neither returned nor is it unwinding without a panic. -/
def PC.uncancelled : PC → Bool
  | PC.returned => false
  | PC.unwind _ none => false
  | _ => true

/-- Number of 64-bit words `n` on which the entropy path of `randomInt(min, max)`
returns `v`. -/
def hits (min max v : Int) : Nat :=
  Nat.count (fun n => randomIntWord min max n = Except.ok v) word64

/-- Scenario A of the specification: one worker, pause 0, demo mode. -/
def scenarioA : config := config.mk [] [] 1 0 [] [] true

/-- The channel `done` of `main.go` lines 248-252 is closed once `wg.Wait()`
has returned, that is once every spawned worker has run its deferred
`wg.Done()`. -/
def doneClosed (p : Pool) : Bool := p.workers.all (fun w => w.2.ended)

/-- Which case the `select` of `main.go` line 253 takes on the pool `p`: the
case `<-done` needs a closed channel, and `timerWins` tells that the 5 second
timer has fired and is the case the runtime picks. -/
def selectJoin (p : Pool) (timerWins : Bool) : Bool := doneClosed p && !timerWins

/-! ## Sample inputs -/

/-- A writer for one broker `a` and topic `t`. -/
def sampleWriter : Writer := newWriter [97] [116]

/-- A non-demo worker with id 1 and a pause of one second. -/
def sampleArgs : WorkerArgs := WorkerArgs.mk 1 (some sampleWriter) 1000000000 false

/-- A demo worker with id 1 and a pause of one second. -/
def sampleDemoArgs : WorkerArgs := WorkerArgs.mk 1 none 1000000000 true

/-- Token not signalled, entropy word 41, the send succeeds after 5 ns. -/
def oracleOk : Oracle :=
  Oracle.mk false true (Entropy.bytes (EntropyBytes.mk 41 0 0 0 0 0 0 0)) true 5

/-- Token not signalled, entropy word 41, the send fails after 7 ns. -/
def oracleFail : Oracle :=
  Oracle.mk false true (Entropy.bytes (EntropyBytes.mk 41 0 0 0 0 0 0 0)) false 7

/-- Token signalled and seen by the `select`. -/
def oracleCancel : Oracle :=
  Oracle.mk true false (Entropy.bytes (EntropyBytes.mk 41 0 0 0 0 0 0 0)) true 5

/-- Two demo workers with a pause of one second. -/
def sampleDemoConfig : config := config.mk [] [] 2 1 [] [] true

/-- An immediate shutdown of two workers: each starts, creates its ticker, sees
the token signalled at the top of the loop and runs its deferred calls. -/
def sampleSchedule : List (Nat × Oracle) :=
  [(0, oracleCancel), (1, oracleCancel), (0, oracleCancel), (0, oracleCancel),
    (1, oracleCancel), (1, oracleCancel), (0, oracleCancel), (1, oracleCancel)]

/-- A non-demo configuration: broker `a`, topic `t`, two workers, pause 1 s. -/
def sampleKafkaConfig : config := config.mk [97] [116] 2 1 [] [] false

/-- A non-demo configuration whose broker string is the single byte `','`. -/
def commaConfig : config := config.mk [44] [116] 1 1 [] [] false

/-! ## Theorems: value generator -/

theorem randomInt_of_le (min max : Int) (h : max ≤ min) (e : Entropy) :
    randomInt min max e = Except.ok min := by
  simp [randomInt, h]

/-- C1: for `min = math.MinInt64`, `max = math.MaxInt64` the span `max-min+1`
wraps to 0 and `randomInt` panics with a division by zero on every outcome of
the entropy read; and on the fallback path a clock reading before 1970 gives
`randomInt(1, 10000)` a value below `min`. -/
theorem randomInt_full_range_panics (e : Entropy) :
    minInt64 < maxInt64 ∧
    randomInt minInt64 maxInt64 e = Except.error Panic.integerDivideByZero ∧
    randomInt 1 10000 (Entropy.readError (-1)) = Except.ok 0 := by
  refine ⟨by decide, ?_, by decide⟩
  cases e <;> rfl

/-! ## Theorems: configuration -/

theorem validate_accepts_iff_aux (cfg : config) :
    validate cfg = none ↔
      0 < cfg.threads ∧ 0 ≤ cfg.pauseSec ∧
        (cfg.demo = true ∨ (cfg.brokers ≠ [] ∧ cfg.topic ≠ [])) := by
  obtain ⟨b, t, n, p, ma, k, d⟩ := cfg
  cases d <;> simp only [validate] <;> split_ifs <;> simp_all
  tauto

/-- C5: `validate` returns `nil` exactly when `threads > 0`, `pauseSec >= 0` and
(demo mode or brokers and topic both non-empty), returns an error otherwise, and
in demo mode its result does not depend on brokers and topic. -/
theorem validate_accepts_iff (cfg : config) :
    (validate cfg = none ↔
      0 < cfg.threads ∧ 0 ≤ cfg.pauseSec ∧
        (cfg.demo = true ∨ (cfg.brokers ≠ [] ∧ cfg.topic ≠ []))) ∧
    (validate cfg = none ∨ ∃ msg, validate cfg = some msg) ∧
    (∀ b t b2 t2 : GoString,
      validate (config.mk b t cfg.threads cfg.pauseSec cfg.metricsAddr cfg.kconfig true) =
      validate (config.mk b2 t2 cfg.threads cfg.pauseSec cfg.metricsAddr cfg.kconfig true)) := by
  refine ⟨validate_accepts_iff_aux cfg, ?_, ?_⟩
  · cases h : validate cfg
    · exact Or.inl rfl
    · exact Or.inr ⟨_, rfl⟩
  · intro b t b2 t2
    simp [validate]

/-! ## Theorems: worker -/

theorem run_nil (a : WorkerArgs) (s : WState) : run a [] s = s := rfl

theorem run_cons (a : WorkerArgs) (o : Oracle) (os : List Oracle) (s : WState) :
    run a (o :: os) s = run a os (step a o s) := rfl

theorem run_append (a : WorkerArgs) (os os2 : List Oracle) (s : WState) :
    run a (os ++ os2) s = run a os2 (run a os s) := by
  simp [run, List.foldl_append]

theorem step_of_ended (a : WorkerArgs) (o : Oracle) (s : WState) (h : s.pc.ended = true) :
    step a o s = s := by
  obtain ⟨pc, m, l⟩ := s
  cases pc <;> simp_all [PC.ended, step]

theorem run_of_ended (a : WorkerArgs) (os : List Oracle) (s : WState) (h : s.pc.ended = true) :
    run a os s = s := by
  induction os with
  | nil => rfl
  | cons o os ih => rw [run_cons, step_of_ended a o s h, ih]

/-- C2: in scenario A (`threads = 1`, `pauseSec = 0`, demo), which `validate`
accepts, the single worker `main` starts raises the start counter to 1 and then
panics in `time.NewTicker(0)`; it never reaches the loop and emits no value. -/
theorem scenarioA_worker_panics (o1 o2 o3 : Oracle) (os : List Oracle) :
    validate scenarioA = none ∧
    spawnArgs scenarioA = [WorkerArgs.mk 1 none 0 true] ∧
    (run (WorkerArgs.mk 1 none 0 true) (o1 :: o2 :: o3 :: os) (WState.init Metrics.zero)).pc
      = PC.panicked Panic.nonPositiveTickerInterval ∧
    (run (WorkerArgs.mk 1 none 0 true) (o1 :: o2 :: o3 :: os)
      (WState.init Metrics.zero)).metrics.threadStarts = 1 ∧
    (run (WorkerArgs.mk 1 none 0 true) (o1 :: o2 :: o3 :: os) (WState.init Metrics.zero)).log
      = [Effect.wgDone 1, Effect.logEnd 1, Effect.logStart 1] := by
  have h3 : run (WorkerArgs.mk 1 none 0 true) (o1 :: o2 :: o3 :: os) (WState.init Metrics.zero)
      = WState.mk (PC.panicked Panic.nonPositiveTickerInterval)
          (Metrics.mk 0 0 1 1 0 []) [Effect.wgDone 1, Effect.logEnd 1, Effect.logStart 1] := by
    rw [run_cons, run_cons, run_cons]
    exact run_of_ended _ _ _ rfl
  refine ⟨by decide, by decide, ?_, ?_, ?_⟩ <;> rw [h3]

theorem randomIntWord_of_span (min max : Int) (n span : Nat)
    (h : toUint64 (wrapInt64 (wrapInt64 (max - min) + 1)) = span) (h0 : span ≠ 0) :
    randomIntWord min max n = Except.ok (wrapInt64 (min + toInt64 (n % span))) := by
  subst h
  simp only [randomIntWord]
  rw [if_neg h0]

theorem randomIntWord_worker (n : Nat) :
    randomIntWord 1 10000 n = Except.ok (1 + ((n % 10000 : Nat) : Int)) := by
  have hk : n % 10000 < 10000 := Nat.mod_lt _ (by norm_num)
  rw [randomIntWord_of_span 1 10000 n 10000 (by decide) (by norm_num)]
  refine congrArg Except.ok ?_
  unfold toInt64 wrapInt64
  omega

theorem randomInt_worker_ok (e : Entropy) : ∃ v, randomInt 1 10000 e = Except.ok v := by
  have h2 : wrapInt64 (wrapInt64 (10000 - 1) + 1) = 10000 := by decide
  cases e with
  | bytes b => exact ⟨_, by simp only [randomInt]; rw [if_neg (by norm_num)]; exact randomIntWord_worker _⟩
  | readError t =>
    refine ⟨wrapInt64 (1 + goRem t 10000), ?_⟩
    simp only [randomInt, randomIntClock, h2]
    rw [if_neg (by norm_num), if_neg (by norm_num)]

theorem step_produce_demo (a : WorkerArgs) (o : Oracle) (s : WState)
    (hd : a.demo = true) (hpc : s.pc = PC.produce) :
    ∃ v, step a o s = WState.mk PC.pauseWait s.metrics (Effect.printValue a.id v :: s.log) := by
  obtain ⟨v, hv⟩ := randomInt_worker_ok o.entropy
  exact ⟨v, by simp [step, hpc, hv, hd]⟩

theorem step_produce_send (a : WorkerArgs) (o : Oracle) (s : WState)
    (hd : a.demo = false) (hpc : s.pc = PC.produce) :
    ∃ v, step a o s = sendValue a o v s := by
  obtain ⟨v, hv⟩ := randomInt_worker_ok o.entropy
  exact ⟨v, by simp [step, hpc, hv, hd]⟩

/-- Every step, in every mode, keeps the written counter in line with the
successful sends of the log and the error counter with the failed ones. -/
theorem step_counts (a : WorkerArgs) (o : Oracle) (s : WState) :
    (step a o s).metrics.numbersWritten + sendCount true s.log
      = s.metrics.numbersWritten + sendCount true (step a o s).log ∧
    (step a o s).metrics.writeErrors + sendCount false s.log
      = s.metrics.writeErrors + sendCount false (step a o s).log ∧
    s.metrics.numbersWritten ≤ (step a o s).metrics.numbersWritten ∧
    s.metrics.writeErrors ≤ (step a o s).metrics.writeErrors := by
  obtain ⟨pc, m, l⟩ := s
  cases pc with
  | produce =>
    simp only [step]
    cases randomInt 1 10000 o.entropy with
    | error p => simp
    | ok v =>
      cases hd : a.demo
      · cases hw : a.w with
        | none => simp [sendValue, hw]
        | some wr =>
          cases hs : o.sendOk <;> simp [sendValue, hw, hs, sendCount, List.countP_cons] <;> omega
      · simp [sendCount, List.countP_cons]
  | unwind t c => cases t <;> simp [step, runDeferred, sendCount, List.countP_cons]
  | newTicker => simp only [step]; cases newTicker a.pause <;> simp
  | loopTop => simp only [step]; split_ifs <;> simp
  | pauseWait => simp only [step]; split_ifs <;> simp
  | entry => simp [step, sendCount, List.countP_cons]
  | returned => simp [step]
  | panicked c => simp [step]

theorem run_counts (a : WorkerArgs) (os : List Oracle) (s : WState) :
    (run a os s).metrics.numbersWritten + sendCount true s.log
      = s.metrics.numbersWritten + sendCount true (run a os s).log ∧
    (run a os s).metrics.writeErrors + sendCount false s.log
      = s.metrics.writeErrors + sendCount false (run a os s).log ∧
    s.metrics.numbersWritten ≤ (run a os s).metrics.numbersWritten ∧
    s.metrics.writeErrors ≤ (run a os s).metrics.writeErrors := by
  induction os generalizing s with
  | nil => simp [run_nil]
  | cons o os ih =>
    rw [run_cons]
    have h1 := step_counts a o s
    have h2 := ih (step a o s)
    omega

/-- C3: in non-demo mode a loop iteration that sends changes exactly one of
`numbersWritten` (with `totalWritten`, a `uint64` that grows by one short of
its wrap at `2^64`) and `writeErrors`, by one,
according to the result of `WriteMessages`; over any run the written counter
grows by the number of successful sends, the error counter by the number of
failed ones, their sum by the number of sends, and neither decreases. -/
theorem send_changes_one_counter (a : WorkerArgs) (wr : Writer)
    (hd : a.demo = false) (hw : a.w = some wr) :
    (∀ (o : Oracle) (s : WState), s.pc = PC.produce →
      (step a o s).metrics.numbersWritten
        = s.metrics.numbersWritten + (if o.sendOk then 1 else 0) ∧
      (step a o s).metrics.totalWritten
        = (if o.sendOk then addUint64One s.metrics.totalWritten else s.metrics.totalWritten) ∧
      (step a o s).metrics.writeErrors
        = s.metrics.writeErrors + (if o.sendOk then 0 else 1) ∧
      (o.sendOk = true → s.metrics.totalWritten + 1 < 18446744073709551616 →
        (step a o s).metrics.totalWritten = s.metrics.totalWritten + 1) ∧
      sendCount o.sendOk (step a o s).log = sendCount o.sendOk s.log + 1 ∧
      sendCount (!o.sendOk) (step a o s).log = sendCount (!o.sendOk) s.log) ∧
    (∀ (os : List Oracle) (s : WState),
      (run a os s).metrics.numbersWritten + sendCount true s.log
        = s.metrics.numbersWritten + sendCount true (run a os s).log ∧
      (run a os s).metrics.writeErrors + sendCount false s.log
        = s.metrics.writeErrors + sendCount false (run a os s).log ∧
      (run a os s).metrics.numbersWritten + (run a os s).metrics.writeErrors
          + (sendCount true s.log + sendCount false s.log)
        = s.metrics.numbersWritten + s.metrics.writeErrors
          + (sendCount true (run a os s).log + sendCount false (run a os s).log) ∧
      s.metrics.numbersWritten ≤ (run a os s).metrics.numbersWritten ∧
      s.metrics.writeErrors ≤ (run a os s).metrics.writeErrors) := by
  constructor
  · intro o s hpc
    obtain ⟨v, hv⟩ := step_produce_send a o s hd hpc
    rw [hv]
    cases hs : o.sendOk
    · simp [sendValue, hw, hs, sendCount, List.countP_cons]
    · simp only [sendValue, hw, hs, sendCount, List.countP_cons, addUint64One]
      refine ⟨by simp, by simp, by simp, ?_, by simp, by simp⟩
      intro _ hlt
      exact Nat.mod_eq_of_lt hlt
  · intro os s
    have h := run_counts a os s
    omega

theorem send_changes_one_counter_witness :
    (run sampleArgs [oracleOk, oracleOk, oracleOk, oracleOk, oracleCancel, oracleFail,
        oracleFail, oracleOk] (WState.init Metrics.zero)).metrics.numbersWritten
        + sendCount true (WState.init Metrics.zero).log
      = (WState.init Metrics.zero).metrics.numbersWritten
        + sendCount true (run sampleArgs [oracleOk, oracleOk, oracleOk, oracleOk, oracleCancel,
            oracleFail, oracleFail, oracleOk] (WState.init Metrics.zero)).log :=
  ((send_changes_one_counter sampleArgs sampleWriter rfl rfl).2
    [oracleOk, oracleOk, oracleOk, oracleOk, oracleCancel, oracleFail, oracleFail, oracleOk]
    (WState.init Metrics.zero)).1

theorem step_uncancelled (a : WorkerArgs) (o : Oracle) (s : WState)
    (ho : o.ctxDone = false) (h : s.pc.uncancelled = true) :
    (step a o s).pc.uncancelled = true := by
  obtain ⟨pc, m, l⟩ := s
  cases pc with
  | produce =>
    simp only [step]
    cases randomInt 1 10000 o.entropy with
    | error p => simp [PC.uncancelled]
    | ok v =>
      cases hd : a.demo
      · cases hw : a.w with
        | none => simp [sendValue, hw, PC.uncancelled]
        | some wr => cases hs : o.sendOk <;> simp [sendValue, hw, hs, PC.uncancelled]
      · simp [PC.uncancelled]
  | unwind t c =>
    cases c with
    | none => simp [PC.uncancelled] at h
    | some p => simp [step, runDeferred, PC.uncancelled]
  | newTicker => simp only [step]; cases newTicker a.pause <;> simp [PC.uncancelled]
  | loopTop => simp [step, ho, PC.uncancelled]
  | pauseWait => simp [step, ho, PC.uncancelled]
  | entry => simp [step, PC.uncancelled]
  | returned => simp [PC.uncancelled] at h
  | panicked c => simp [step, PC.uncancelled]

theorem run_uncancelled (a : WorkerArgs) (os : List Oracle) (s : WState)
    (ho : ∀ o ∈ os, o.ctxDone = false) (h : s.pc.uncancelled = true) :
    (run a os s).pc.uncancelled = true := by
  induction os generalizing s with
  | nil => simpa [run_nil] using h
  | cons o os ih =>
    rw [run_cons]
    exact ih _ (fun x hx => ho x (List.mem_cons_of_mem _ hx))
      (step_uncancelled a o s (ho o (List.mem_cons_self _ _)) h)

theorem step_inLoop (a : WorkerArgs) (wr : Writer) (o : Oracle) (s : WState)
    (hd : a.demo = false) (hw : a.w = some wr)
    (ho : o.ctxDone = false) (h : s.pc.inLoop = true) :
    (step a o s).pc.inLoop = true := by
  obtain ⟨pc, m, l⟩ := s
  cases pc with
  | produce =>
    obtain ⟨v, hv⟩ := step_produce_send a o (WState.mk PC.produce m l) hd rfl
    rw [hv]
    cases hs : o.sendOk <;> simp [sendValue, hw, hs, PC.inLoop]
  | loopTop => simp [step, ho, PC.inLoop]
  | pauseWait => simp [step, ho, PC.inLoop]
  | unwind t c => simp [PC.inLoop] at h
  | newTicker => simp [PC.inLoop] at h
  | entry => simp [PC.inLoop] at h
  | returned => simp [PC.inLoop] at h
  | panicked c => simp [PC.inLoop] at h

/-- C4: in non-demo mode, whatever the send outcomes and whatever the pause, a
step leaves the loop only at the top check or at the pause wait and only when
that check sees the cancellation token signalled; a send, failed or not, is
followed by the pause wait and, unless the token is signalled, by the next
iteration; while the token is not signalled the worker stays in the loop, and a
worker that has returned has seen the token signalled. -/
theorem loop_exit_only_on_cancel (a : WorkerArgs) (wr : Writer)
    (hd : a.demo = false) (hw : a.w = some wr) :
    (∀ (o : Oracle) (s : WState), s.pc.inLoop = true → (step a o s).pc.inLoop = false →
      (s.pc = PC.loopTop ∨ s.pc = PC.pauseWait) ∧ o.ctxDone = true ∧
        (step a o s).pc = PC.unwind true none) ∧
    (∀ (o : Oracle) (s : WState), s.pc = PC.produce → (step a o s).pc = PC.pauseWait) ∧
    (∀ (o : Oracle) (s : WState), o.ctxDone = false → s.pc = PC.pauseWait →
      (step a o s).pc = PC.loopTop) ∧
    (∀ (o : Oracle) (s : WState), o.ctxDone = false → s.pc = PC.loopTop →
      (step a o s).pc = PC.produce) ∧
    (∀ (os : List Oracle) (s : WState), (∀ o ∈ os, o.ctxDone = false) →
      s.pc.inLoop = true → (run a os s).pc.inLoop = true) ∧
    (∀ (os : List Oracle) (m : Metrics), (run a os (WState.init m)).pc = PC.returned →
      ∃ o ∈ os, o.ctxDone = true) := by
  refine ⟨?_, ?_, ?_, ?_, ?_, ?_⟩
  · intro o s hin hout
    cases hc : o.ctxDone
    · rw [step_inLoop a wr o s hd hw hc hin] at hout
      exact absurd hout (by simp)
    · obtain ⟨pc, m, l⟩ := s
      cases pc with
      | produce =>
        obtain ⟨v, hv⟩ := step_produce_send a o (WState.mk PC.produce m l) hd rfl
        rw [hv] at hout
        cases hs : o.sendOk <;> simp [sendValue, hw, hs, PC.inLoop] at hout
      | loopTop => simp [step, hc]
      | pauseWait =>
        cases ht : o.tickWins
        · simp [step, hc, ht]
        · simp [step, hc, ht, PC.inLoop] at hout
      | unwind t c => simp [PC.inLoop] at hin
      | newTicker => simp [PC.inLoop] at hin
      | entry => simp [PC.inLoop] at hin
      | returned => simp [PC.inLoop] at hin
      | panicked c => simp [PC.inLoop] at hin
  · intro o s hpc
    obtain ⟨v, hv⟩ := step_produce_send a o s hd hpc
    rw [hv]
    cases hs : o.sendOk <;> simp [sendValue, hw, hs]
  · intro o s hc hpc
    simp [step, hpc, hc]
  · intro o s hc hpc
    simp [step, hpc, hc]
  · intro os s hos hin
    induction os generalizing s with
    | nil => simpa [run_nil] using hin
    | cons o os ih =>
      rw [run_cons]
      exact ih _ (fun x hx => hos x (List.mem_cons_of_mem _ hx))
        (step_inLoop a wr o s hd hw (hos o (List.mem_cons_self _ _)) hin)
  · intro os m hret
    by_contra hno
    have hall : ∀ o ∈ os, o.ctxDone = false := by
      intro o ho
      cases hc : o.ctxDone
      · rfl
      · exact absurd ⟨o, ho, hc⟩ hno
    have h := run_uncancelled a os (WState.init m) hall rfl
    rw [hret] at h
    simp [PC.uncancelled] at h

theorem loop_exit_only_on_cancel_witness :
    (run sampleArgs [oracleOk, oracleOk, oracleOk, oracleFail, oracleFail, oracleFail, oracleOk,
        oracleFail, oracleOk]
      (WState.mk PC.loopTop Metrics.zero [])).pc.inLoop = true :=
  (loop_exit_only_on_cancel sampleArgs sampleWriter rfl rfl).2.2.2.2.1
    [oracleOk, oracleOk, oracleOk, oracleFail, oracleFail, oracleFail, oracleOk, oracleFail,
      oracleOk]
    (WState.mk PC.loopTop Metrics.zero []) (by decide) rfl

theorem step_demo_frame (a : WorkerArgs) (hd : a.demo = true) (o : Oracle) (s : WState) :
    (step a o s).metrics.writeErrors = s.metrics.writeErrors ∧
    (step a o s).metrics.numbersWritten = s.metrics.numbersWritten ∧
    (step a o s).metrics.totalWritten = s.metrics.totalWritten ∧
    (step a o s).metrics.writeLatency = s.metrics.writeLatency ∧
    (step a o s).log.countP Effect.isSend = s.log.countP Effect.isSend := by
  obtain ⟨pc, m, l⟩ := s
  cases pc with
  | produce =>
    obtain ⟨v, hv⟩ := step_produce_demo a o (WState.mk PC.produce m l) hd rfl
    rw [hv]
    simp [List.countP_cons, Effect.isSend]
  | unwind t c => cases t <;> simp [step, runDeferred, List.countP_cons, Effect.isSend]
  | newTicker => simp only [step]; cases newTicker a.pause <;> simp
  | loopTop => simp only [step]; split_ifs <;> simp
  | pauseWait => simp only [step]; split_ifs <;> simp
  | entry => simp [step, List.countP_cons, Effect.isSend]
  | returned => simp [step]
  | panicked c => simp [step]

/-- C6: in demo mode, for every number of steps and every cancellation
schedule, a worker run never calls `WriteMessages` and leaves `writeErrors`,
`numbersWritten`, `totalWritten` and the latency histogram as they were; of the
metrics only the thread-start and thread-end counters can change. -/
theorem demo_never_sends (a : WorkerArgs) (hd : a.demo = true) (os : List Oracle) (s : WState) :
    (run a os s).metrics.writeErrors = s.metrics.writeErrors ∧
    (run a os s).metrics.numbersWritten = s.metrics.numbersWritten ∧
    (run a os s).metrics.totalWritten = s.metrics.totalWritten ∧
    (run a os s).metrics.writeLatency = s.metrics.writeLatency ∧
    (run a os s).log.countP Effect.isSend = s.log.countP Effect.isSend := by
  induction os generalizing s with
  | nil => simp [run_nil]
  | cons o os ih =>
    rw [run_cons]
    obtain ⟨h1, h2, h3, h4, h5⟩ := step_demo_frame a hd o s
    obtain ⟨g1, g2, g3, g4, g5⟩ := ih (step a o s)
    exact ⟨g1.trans h1, g2.trans h2, g3.trans h3, g4.trans h4, g5.trans h5⟩

theorem demo_never_sends_witness :
    (run sampleDemoArgs [oracleOk, oracleOk, oracleOk, oracleFail, oracleFail, oracleCancel,
        oracleCancel, oracleOk] (WState.init Metrics.zero)).metrics.writeErrors
        = (WState.init Metrics.zero).metrics.writeErrors ∧
    (run sampleDemoArgs [oracleOk, oracleOk, oracleOk, oracleFail, oracleFail, oracleCancel,
        oracleCancel, oracleOk] (WState.init Metrics.zero)).metrics.numbersWritten
        = (WState.init Metrics.zero).metrics.numbersWritten ∧
    (run sampleDemoArgs [oracleOk, oracleOk, oracleOk, oracleFail, oracleFail, oracleCancel,
        oracleCancel, oracleOk] (WState.init Metrics.zero)).metrics.totalWritten
        = (WState.init Metrics.zero).metrics.totalWritten ∧
    (run sampleDemoArgs [oracleOk, oracleOk, oracleOk, oracleFail, oracleFail, oracleCancel,
        oracleCancel, oracleOk] (WState.init Metrics.zero)).metrics.writeLatency
        = (WState.init Metrics.zero).metrics.writeLatency ∧
    (run sampleDemoArgs [oracleOk, oracleOk, oracleOk, oracleFail, oracleFail, oracleCancel,
        oracleCancel, oracleOk] (WState.init Metrics.zero)).log.countP Effect.isSend
        = (WState.init Metrics.zero).log.countP Effect.isSend :=
  demo_never_sends sampleDemoArgs rfl
    [oracleOk, oracleOk, oracleOk, oracleFail, oracleFail, oracleCancel, oracleCancel, oracleOk]
    (WState.init Metrics.zero)

/-! ## Theorems: pool of workers -/

theorem countP_set_of_get {α : Type} (f : α → Bool) (l : List α) (i : Nat) (x y : α)
    (h : l.get? i = some y) :
    (l.set i x).countP f + (if f y then 1 else 0) = l.countP f + (if f x then 1 else 0) := by
  induction l generalizing i with
  | nil => simp at h
  | cons z zs ih =>
    cases i with
    | zero =>
      simp only [List.get?_cons_zero, Option.some.injEq] at h
      subst h
      simp only [List.set_cons_zero, List.countP_cons]
      omega
    | succ j =>
      simp only [List.get?_cons_succ] at h
      have := ih j h
      simp only [List.set_cons_succ, List.countP_cons]
      omega

/-- A step raises `threadStarts` exactly when it takes the worker out of
`PC.entry`, and `threadEnds` exactly when it completes the deferred calls. -/
theorem step_thread_counts (a : WorkerArgs) (o : Oracle) (s : WState) :
    (step a o s).metrics.threadStarts + (if s.pc.started then 1 else 0)
      = s.metrics.threadStarts + (if (step a o s).pc.started then 1 else 0) ∧
    (step a o s).metrics.threadEnds + (if s.pc.ended then 1 else 0)
      = s.metrics.threadEnds + (if (step a o s).pc.ended then 1 else 0) := by
  obtain ⟨pc, m, l⟩ := s
  cases pc with
  | produce =>
    simp only [step]
    cases randomInt 1 10000 o.entropy with
    | error p => simp [PC.started, PC.ended]
    | ok v =>
      cases hd : a.demo
      · cases hw : a.w with
        | none => simp [sendValue, hw, PC.started, PC.ended]
        | some wr => cases hs : o.sendOk <;> simp [sendValue, hw, hs, PC.started, PC.ended]
      · simp [PC.started, PC.ended]
  | unwind t c => cases c <;> simp [step, runDeferred, PC.started, PC.ended]
  | newTicker =>
    by_cases hp : a.pause ≤ 0 <;> simp [step, newTicker, hp, PC.started, PC.ended]
  | loopTop => cases hc : o.ctxDone <;> simp [step, hc, PC.started, PC.ended]
  | pauseWait =>
    cases hc : o.ctxDone <;> cases ht : o.tickWins <;> simp [step, hc, ht, PC.started, PC.ended]
  | entry => simp [step, PC.started, PC.ended]
  | returned => simp [step]
  | panicked c => simp [step]

theorem map_fst_set_of_get {α β : Type} (l : List (α × β)) (i : Nat) (x y : α × β)
    (h : l.get? i = some y) (hx : x.1 = y.1) :
    (l.set i x).map Prod.fst = l.map Prod.fst := by
  induction l generalizing i with
  | nil => simp at h
  | cons z zs ih =>
    cases i with
    | zero =>
      simp only [List.get?_cons_zero, Option.some.injEq] at h
      subst h
      simp [hx]
    | succ j =>
      simp only [List.get?_cons_succ] at h
      simp [ih j h]

/-- The invariant of the pool: the start counter counts the workers that have
entered `producerThread`, the end counter those that have left it, and the
arguments of the workers never change. -/
theorem poolStep_invariant (p : Pool) (ev : Nat × Oracle)
    (hs : p.metrics.threadStarts = p.workers.countP (fun w => w.2.started))
    (he : p.metrics.threadEnds = p.workers.countP (fun w => w.2.ended)) :
    (poolStep p ev).metrics.threadStarts
      = (poolStep p ev).workers.countP (fun w => w.2.started) ∧
    (poolStep p ev).metrics.threadEnds
      = (poolStep p ev).workers.countP (fun w => w.2.ended) ∧
    (poolStep p ev).workers.map Prod.fst = p.workers.map Prod.fst := by
  unfold poolStep
  by_cases hc : p.crashed = true
  · rw [if_pos hc]
    exact ⟨hs, he, rfl⟩
  · rw [if_neg hc]
    cases hg : p.workers.get? ev.1 with
    | none => exact ⟨hs, he, rfl⟩
    | some w =>
      have h1 := step_thread_counts w.1 ev.2 (WState.mk w.2 p.metrics p.log)
      have h2 := countP_set_of_get (fun w : WorkerArgs × PC => w.2.started) p.workers ev.1
        (w.1, (step w.1 ev.2 (WState.mk w.2 p.metrics p.log)).pc) w hg
      have h3 := countP_set_of_get (fun w : WorkerArgs × PC => w.2.ended) p.workers ev.1
        (w.1, (step w.1 ev.2 (WState.mk w.2 p.metrics p.log)).pc) w hg
      have h4 := map_fst_set_of_get p.workers ev.1
        (w.1, (step w.1 ev.2 (WState.mk w.2 p.metrics p.log)).pc) w hg rfl
      dsimp only at h1 h2 h3 ⊢
      refine ⟨?_, ?_, h4⟩
      · omega
      · omega

theorem poolRun_invariant (sched : List (Nat × Oracle)) (p : Pool)
    (hs : p.metrics.threadStarts = p.workers.countP (fun w => w.2.started))
    (he : p.metrics.threadEnds = p.workers.countP (fun w => w.2.ended)) :
    (poolRun sched p).metrics.threadStarts
      = (poolRun sched p).workers.countP (fun w => w.2.started) ∧
    (poolRun sched p).metrics.threadEnds
      = (poolRun sched p).workers.countP (fun w => w.2.ended) ∧
    (poolRun sched p).workers.map Prod.fst = p.workers.map Prod.fst := by
  induction sched generalizing p with
  | nil => exact ⟨hs, he, rfl⟩
  | cons ev evs ih =>
    obtain ⟨h1, h2, h3⟩ := poolStep_invariant p ev hs he
    obtain ⟨g1, g2, g3⟩ := ih (poolStep p ev) h1 h2
    exact ⟨g1, g2, g3.trans h3⟩

theorem ended_started (pc : PC) (h : pc.ended = true) : pc.started = true := by
  cases pc <;> simp_all [PC.ended, PC.started]

/-- C7: for an accepted configuration with `threads = n`, `main` spawns exactly
`n` workers with ids `1..n`; in every interleaved execution the start counter
equals the number of workers that have entered `producerThread` and the end
counter the number that have left it (by return or by panic), so always
`threadEnds <= threadStarts <= n`, and once all workers have returned both
counters equal `n`. -/
theorem pool_thread_counts (cfg : config) (h : validate cfg = none)
    (sched : List (Nat × Oracle)) :
    (spawnArgs cfg).map WorkerArgs.id
      = (List.range cfg.threads.toNat).map (fun i => Int.ofNat i + 1) ∧
    Int.ofNat (spawnArgs cfg).length = cfg.threads ∧
    (poolRun sched (startPool cfg)).workers.map Prod.fst = spawnArgs cfg ∧
    (poolRun sched (startPool cfg)).metrics.threadStarts
      = (poolRun sched (startPool cfg)).workers.countP (fun w => w.2.started) ∧
    (poolRun sched (startPool cfg)).metrics.threadEnds
      = (poolRun sched (startPool cfg)).workers.countP (fun w => w.2.ended) ∧
    (poolRun sched (startPool cfg)).metrics.threadEnds
      ≤ (poolRun sched (startPool cfg)).metrics.threadStarts ∧
    Int.ofNat (poolRun sched (startPool cfg)).metrics.threadStarts ≤ cfg.threads ∧
    ((∀ w ∈ (poolRun sched (startPool cfg)).workers, w.2 = PC.returned) →
      Int.ofNat (poolRun sched (startPool cfg)).metrics.threadStarts = cfg.threads ∧
      Int.ofNat (poolRun sched (startPool cfg)).metrics.threadEnds = cfg.threads) := by
  have hpos : 0 < cfg.threads := ((validate_accepts_iff_aux cfg).mp h).1
  have hlenN : (spawnArgs cfg).length = cfg.threads.toNat := by
    unfold spawnArgs
    rw [List.length_map, List.length_range]
  have hs0 : (startPool cfg).workers.countP (fun w => w.2.started) = 0 := by
    rw [List.countP_eq_zero]
    intro w hw
    simp only [startPool, List.mem_map] at hw
    obtain ⟨a, _, rfl⟩ := hw
    simp [PC.started]
  have he0 : (startPool cfg).workers.countP (fun w => w.2.ended) = 0 := by
    rw [List.countP_eq_zero]
    intro w hw
    simp only [startPool, List.mem_map] at hw
    obtain ⟨a, _, rfl⟩ := hw
    simp [PC.ended]
  obtain ⟨g1, g2, g3⟩ := poolRun_invariant sched (startPool cfg) hs0.symm he0.symm
  have hmap : (poolRun sched (startPool cfg)).workers.map Prod.fst = spawnArgs cfg := by
    rw [g3]
    simp [startPool, Function.comp_def]
  have hwl : (poolRun sched (startPool cfg)).workers.length = (spawnArgs cfg).length := by
    rw [← hmap, List.length_map]
  have hle : (poolRun sched (startPool cfg)).workers.countP (fun w => w.2.ended)
      ≤ (poolRun sched (startPool cfg)).workers.countP (fun w => w.2.started) :=
    List.countP_mono_left (fun w _ hw => ended_started w.2 hw)
  have hsl : (poolRun sched (startPool cfg)).workers.countP (fun w => w.2.started)
      ≤ (poolRun sched (startPool cfg)).workers.length := List.countP_le_length _
  simp only [Int.ofNat_eq_coe]
  refine ⟨by simp [spawnArgs], by omega, hmap, g1, g2, by omega, by omega, ?_⟩
  intro hall
  have c1 : (poolRun sched (startPool cfg)).workers.countP (fun w => w.2.started)
      = (poolRun sched (startPool cfg)).workers.length :=
    List.countP_eq_length.mpr (fun w hw => by simp [hall w hw, PC.started])
  have c2 : (poolRun sched (startPool cfg)).workers.countP (fun w => w.2.ended)
      = (poolRun sched (startPool cfg)).workers.length :=
    List.countP_eq_length.mpr (fun w hw => by simp [hall w hw, PC.ended])
  constructor <;> omega

theorem pool_thread_counts_witness :
    Int.ofNat (poolRun sampleSchedule (startPool sampleDemoConfig)).metrics.threadStarts
      = sampleDemoConfig.threads ∧
    Int.ofNat (poolRun sampleSchedule (startPool sampleDemoConfig)).metrics.threadEnds
      = sampleDemoConfig.threads :=
  (pool_thread_counts sampleDemoConfig (by decide) sampleSchedule).2.2.2.2.2.2.2 (by decide)

/-! ## Theorems: coordinator -/

theorem count_goProducerThread (e : MainEvent) (l : List WorkerArgs)
    (h : ∀ a, e ≠ MainEvent.goProducerThread a) :
    (l.map MainEvent.goProducerThread).count e = 0 := by
  rw [List.count_eq_zero]
  intro hm
  obtain ⟨a, _, ha⟩ := List.mem_map.mp hm
  exact h a ha.symm

/-- The trace of an accepted `main` written out: a startup part without any
shutdown effect, then the gauge, the cancellation, the wait with its outcome,
the server shutdown, and the deferred calls. -/
theorem main_shutdown_trace (cfg : config) (h : validate cfg = none) (joinWins : Bool) :
    ∃ pre : List MainEvent,
      main cfg joinWins
        = pre ++ [MainEvent.shutdownTimeSet, MainEvent.cancel]
          ++ (if joinWins then [MainEvent.joined]
              else [MainEvent.deadlineElapsed, MainEvent.logTimeout])
          ++ [MainEvent.srvShutdown, MainEvent.logStopped, MainEvent.cancel2]
          ++ (if cfg.demo then [] else [MainEvent.writerClose]) ∧
      pre.count MainEvent.shutdownTimeSet = 0 ∧
      pre.count MainEvent.cancel = 0 ∧
      pre.count MainEvent.joined = 0 ∧
      pre.count MainEvent.deadlineElapsed = 0 ∧
      pre.count MainEvent.logTimeout = 0 ∧
      pre.count MainEvent.writerClose = 0 := by
  have hs := count_goProducerThread MainEvent.shutdownTimeSet (spawnArgs cfg) (fun a => by simp)
  have hc := count_goProducerThread MainEvent.cancel (spawnArgs cfg) (fun a => by simp)
  have hj := count_goProducerThread MainEvent.joined (spawnArgs cfg) (fun a => by simp)
  have hd := count_goProducerThread MainEvent.deadlineElapsed (spawnArgs cfg) (fun a => by simp)
  have hl := count_goProducerThread MainEvent.logTimeout (spawnArgs cfg) (fun a => by simp)
  have hw := count_goProducerThread MainEvent.writerClose (spawnArgs cfg) (fun a => by simp)
  refine ⟨[MainEvent.logStarting, MainEvent.startTimeSet, MainEvent.serveMetrics]
      ++ (match writerOf cfg with
        | none => []
        | some w => [MainEvent.newWriter w])
      ++ (MainEvent.wgAdd cfg.threads :: (spawnArgs cfg).map MainEvent.goProducerThread)
      ++ [MainEvent.awaitSignal, MainEvent.logShuttingDown], ?_, ?_, ?_, ?_, ?_, ?_, ?_⟩
  · cases hdm : cfg.demo <;> cases joinWins <;> simp [main, h, writerOf, hdm, waitEvents]
  · cases hdm : cfg.demo <;> simp [writerOf, hdm, List.count_cons, List.count_append, hs]
  · cases hdm : cfg.demo <;> simp [writerOf, hdm, List.count_cons, List.count_append, hc]
  · cases hdm : cfg.demo <;> simp [writerOf, hdm, List.count_cons, List.count_append, hj]
  · cases hdm : cfg.demo <;> simp [writerOf, hdm, List.count_cons, List.count_append, hd]
  · cases hdm : cfg.demo <;> simp [writerOf, hdm, List.count_cons, List.count_append, hl]
  · cases hdm : cfg.demo <;> simp [writerOf, hdm, List.count_cons, List.count_append, hw]

/-- C8: on the shutdown path of `main` the effects are, in this order: the
shutdown gauge is set, the token is cancelled, the wait ends either with the
join of the workers or with the elapsed 5 second deadline followed by the
logged timeout, the metrics server is shut down, and last the deferred calls
run, `writer.Close` among them in non-demo mode only. `cancel` occurs exactly
once, `writer.Close` exactly once in non-demo mode and never in demo mode, and
nothing of the shutdown occurs before the gauge is set. The join can only be
what ends the wait when every worker of the pool has left `producerThread`,
and then both thread counters equal the number of workers; while a worker is
still running the wait ends with the deadline and the timeout log. -/
theorem shutdown_order (cfg : config) (h : validate cfg = none) (joinWins : Bool) :
    (main cfg joinWins).count MainEvent.cancel = 1 ∧
    (main cfg joinWins).count MainEvent.writerClose = (if cfg.demo then 0 else 1) ∧
    (∃ pre : List MainEvent,
      main cfg joinWins
        = pre ++ [MainEvent.shutdownTimeSet, MainEvent.cancel]
          ++ (if joinWins then [MainEvent.joined]
              else [MainEvent.deadlineElapsed, MainEvent.logTimeout])
          ++ [MainEvent.srvShutdown, MainEvent.logStopped, MainEvent.cancel2]
          ++ (if cfg.demo then [] else [MainEvent.writerClose]) ∧
      pre.count MainEvent.shutdownTimeSet = 0 ∧
      pre.count MainEvent.cancel = 0 ∧
      pre.count MainEvent.joined = 0 ∧
      pre.count MainEvent.deadlineElapsed = 0 ∧
      pre.count MainEvent.logTimeout = 0 ∧
      pre.count MainEvent.writerClose = 0) ∧
    (main cfg joinWins).count MainEvent.joined = (if joinWins then 1 else 0) ∧
    (main cfg joinWins).count MainEvent.deadlineElapsed = (if joinWins then 0 else 1) ∧
    (main cfg joinWins).count MainEvent.logTimeout = (if joinWins then 0 else 1) ∧
    (∀ (sched : List (Nat × Oracle)) (timerWins : Bool),
      (MainEvent.joined ∈ main cfg (selectJoin (poolRun sched (startPool cfg)) timerWins) →
        (∀ w ∈ (poolRun sched (startPool cfg)).workers, w.2.ended = true) ∧
        Int.ofNat (poolRun sched (startPool cfg)).metrics.threadEnds = cfg.threads ∧
        Int.ofNat (poolRun sched (startPool cfg)).metrics.threadStarts = cfg.threads) ∧
      (doneClosed (poolRun sched (startPool cfg)) = false →
        MainEvent.deadlineElapsed
          ∈ main cfg (selectJoin (poolRun sched (startPool cfg)) timerWins) ∧
        MainEvent.logTimeout
          ∈ main cfg (selectJoin (poolRun sched (startPool cfg)) timerWins))) := by
  obtain ⟨pre, hpre, p1, p2, p3, p4, p5, p6⟩ := main_shutdown_trace cfg h joinWins
  have hcount : ∀ e : MainEvent, (main cfg joinWins).count e
      = pre.count e + [MainEvent.shutdownTimeSet, MainEvent.cancel].count e
        + (if joinWins then [MainEvent.joined]
            else [MainEvent.deadlineElapsed, MainEvent.logTimeout]).count e
        + [MainEvent.srvShutdown, MainEvent.logStopped, MainEvent.cancel2].count e
        + (if cfg.demo then [] else [MainEvent.writerClose]).count e := by
    intro e
    rw [hpre]
    simp only [List.count_append]
  refine ⟨?_, ?_, ⟨pre, hpre, p1, p2, p3, p4, p5, p6⟩, ?_, ?_, ?_, ?_⟩
  · rw [hcount, p2]
    cases hdm : cfg.demo <;> cases joinWins <;> simp [List.count_cons]
  · rw [hcount, p6]
    cases hdm : cfg.demo <;> cases joinWins <;> simp [List.count_cons]
  · rw [hcount, p3]
    cases hdm : cfg.demo <;> cases joinWins <;> simp [List.count_cons]
  · rw [hcount, p4]
    cases hdm : cfg.demo <;> cases joinWins <;> simp [List.count_cons]
  · rw [hcount, p5]
    cases hdm : cfg.demo <;> cases joinWins <;> simp [List.count_cons]
  · intro sched timerWins
    have hpos : 0 < cfg.threads := ((validate_accepts_iff_aux cfg).mp h).1
    have hs0 : (startPool cfg).workers.countP (fun w => w.2.started) = 0 := by
      rw [List.countP_eq_zero]
      intro w hw
      simp only [startPool, List.mem_map] at hw
      obtain ⟨a, _, rfl⟩ := hw
      simp [PC.started]
    have he0 : (startPool cfg).workers.countP (fun w => w.2.ended) = 0 := by
      rw [List.countP_eq_zero]
      intro w hw
      simp only [startPool, List.mem_map] at hw
      obtain ⟨a, _, rfl⟩ := hw
      simp [PC.ended]
    obtain ⟨g1, g2, g3⟩ := poolRun_invariant sched (startPool cfg) hs0.symm he0.symm
    have hlen : (poolRun sched (startPool cfg)).workers.length = cfg.threads.toNat := by
      have := congrArg List.length g3
      simpa [startPool, spawnArgs] using this
    constructor
    · intro hmem
      have hsel : selectJoin (poolRun sched (startPool cfg)) timerWins = true := by
        by_contra hne
        have hf : selectJoin (poolRun sched (startPool cfg)) timerWins = false := by
          simpa using hne
        obtain ⟨pre2, hpre2, _, _, q3, _, _, _⟩ := main_shutdown_trace cfg h false
        rw [hf, hpre2] at hmem
        have hz : (pre2 ++ [MainEvent.shutdownTimeSet, MainEvent.cancel]
            ++ (if false = true then [MainEvent.joined]
                else [MainEvent.deadlineElapsed, MainEvent.logTimeout])
            ++ [MainEvent.srvShutdown, MainEvent.logStopped, MainEvent.cancel2]
            ++ (if cfg.demo then [] else [MainEvent.writerClose])).count MainEvent.joined
            = 0 := by
          simp only [List.count_append, q3]
          cases hdm : cfg.demo <;> simp [List.count_cons]
        exact (List.count_eq_zero.mp hz) hmem
      have hdone : doneClosed (poolRun sched (startPool cfg)) = true := by
        simp only [selectJoin, Bool.and_eq_true] at hsel
        exact hsel.1
      have hall : ∀ w ∈ (poolRun sched (startPool cfg)).workers, w.2.ended = true := by
        simpa [doneClosed] using hdone
      have c2 : (poolRun sched (startPool cfg)).workers.countP (fun w => w.2.ended)
          = (poolRun sched (startPool cfg)).workers.length :=
        List.countP_eq_length.mpr (fun w hw => hall w hw)
      have c1 : (poolRun sched (startPool cfg)).workers.countP (fun w => w.2.started)
          = (poolRun sched (startPool cfg)).workers.length :=
        List.countP_eq_length.mpr (fun w hw => ended_started w.2 (hall w hw))
      refine ⟨hall, ?_, ?_⟩
      · simp only [Int.ofNat_eq_coe]
        omega
      · simp only [Int.ofNat_eq_coe]
        omega
    · intro hopen
      have hf : selectJoin (poolRun sched (startPool cfg)) timerWins = false := by
        simp [selectJoin, hopen]
      obtain ⟨pre2, hpre2, _⟩ := main_shutdown_trace cfg h false
      rw [hf, hpre2]
      constructor <;> simp

/-- An immediate shutdown of the sample demo pool: both workers have returned,
so the join ends the wait and no writer is closed. -/
theorem shutdown_order_witness :
    (main sampleDemoConfig (selectJoin (poolRun sampleSchedule (startPool sampleDemoConfig))
      false)).count MainEvent.cancel = 1 ∧
    (main sampleDemoConfig (selectJoin (poolRun sampleSchedule (startPool sampleDemoConfig))
      false)).count MainEvent.writerClose = (if sampleDemoConfig.demo then 0 else 1) ∧
    (main sampleDemoConfig (selectJoin (poolRun sampleSchedule (startPool sampleDemoConfig))
      false)).count MainEvent.joined
      = (if selectJoin (poolRun sampleSchedule (startPool sampleDemoConfig)) false
          then 1 else 0) :=
  ⟨(shutdown_order sampleDemoConfig (by decide)
      (selectJoin (poolRun sampleSchedule (startPool sampleDemoConfig)) false)).1,
    (shutdown_order sampleDemoConfig (by decide)
      (selectJoin (poolRun sampleSchedule (startPool sampleDemoConfig)) false)).2.1,
    (shutdown_order sampleDemoConfig (by decide)
      (selectJoin (poolRun sampleSchedule (startPool sampleDemoConfig)) false)).2.2.2.1⟩

/-! ## Theorems: distribution of the generated value -/

/-- On the entropy path, as long as the span `max-min+1` fits a 64-bit word,
`randomInt` returns `min + n mod (max-min+1)` without wrapping. -/
theorem randomIntWord_eq (min max : Int) (hmin : isInt64 min) (hmax : isInt64 max)
    (hlt : min < max) (hfull : max - min + 1 < 18446744073709551616) (n : Nat) :
    randomIntWord min max n
      = Except.ok (min + Int.ofNat (n % (max - min + 1).toNat)) := by
  unfold isInt64 minInt64 maxInt64 at hmin hmax
  have hspan : toUint64 (wrapInt64 (wrapInt64 (max - min) + 1)) = (max - min + 1).toNat := by
    unfold toUint64 wrapInt64
    omega
  rw [randomIntWord_of_span min max n _ hspan (by omega)]
  refine congrArg Except.ok ?_
  have hk : n % (max - min + 1).toNat < (max - min + 1).toNat := Nat.mod_lt _ (by omega)
  generalize n % (max - min + 1).toNat = k at hk
  simp only [Int.ofNat_eq_coe]
  unfold toInt64 wrapInt64
  omega

theorem count_congr_iff (p q : Nat → Prop) [DecidablePred p] [DecidablePred q]
    (h : ∀ k, p k ↔ q k) (n : Nat) : Nat.count p n = Nat.count q n :=
  le_antisymm (Nat.count_mono_left (fun k hk => (h k).mp hk))
    (Nat.count_mono_left (fun k hk => (h k).mpr hk))

theorem hits_formula (min max : Int) (hmin : isInt64 min) (hmax : isInt64 max)
    (hlt : min < max) (hfull : max - min + 1 < 18446744073709551616)
    (v : Int) (hv1 : min ≤ v) (hv2 : v ≤ max) :
    hits min max v = word64 / (max - min + 1).toNat
      + (if (v - min).toNat < word64 % (max - min + 1).toNat then 1 else 0) := by
  have hR : 0 < (max - min + 1).toNat := by omega
  have hvR : (v - min).toNat < (max - min + 1).toNat := by omega
  have hiff : ∀ n : Nat, randomIntWord min max n = Except.ok v ↔
      n ≡ (v - min).toNat [MOD (max - min + 1).toNat] := by
    intro n
    rw [randomIntWord_eq min max hmin hmax hlt hfull n]
    have hk : n % (max - min + 1).toNat < (max - min + 1).toNat := Nat.mod_lt _ hR
    unfold Nat.ModEq
    rw [Nat.mod_eq_of_lt hvR]
    simp only [Except.ok.injEq, Int.ofNat_eq_coe]
    generalize n % (max - min + 1).toNat = k at hk
    omega
  unfold hits
  rw [count_congr_iff _ _ hiff word64, Nat.count_modEq_card word64 hR, Nat.mod_eq_of_lt hvR]

/-- C9, as stated, fails: for `randomInt(1, 10000)` the value 1 is the result
for 1844674407370956 of the `2^64` words and the value 10000 for only
1844674407370955, since 10000 does not divide `2^64`. -/
theorem hits_not_uniform :
    hits 1 10000 1 = 1844674407370956 ∧ hits 1 10000 10000 = 1844674407370955 ∧
    hits 1 10000 1 ≠ hits 1 10000 10000 := by
  have h1 := hits_formula 1 10000 (by decide) (by decide) (by decide) (by decide) 1
    (by decide) (by decide)
  have h2 := hits_formula 1 10000 (by decide) (by decide) (by decide) (by decide) 10000
    (by decide) (by decide)
  have e1 : word64 / ((10000 : Int) - 1 + 1).toNat
      + (if ((1 : Int) - 1).toNat < word64 % ((10000 : Int) - 1 + 1).toNat then 1 else 0)
      = 1844674407370956 := by decide
  have e2 : word64 / ((10000 : Int) - 1 + 1).toNat
      + (if ((10000 : Int) - 1).toNat < word64 % ((10000 : Int) - 1 + 1).toNat then 1 else 0)
      = 1844674407370955 := by decide
  rw [e1] at h1
  rw [e2] at h2
  refine ⟨h1, h2, ?_⟩
  rw [h1, h2]
  decide

/-- C9, amended: for `min < max` whose span `R = max-min+1` fits a 64-bit word,
the entropy path returns `min + n mod R`, and every `v` in `[min, max]` is the
result for `2^64 / R + 1` words when `v - min < 2^64 mod R` and for `2^64 / R`
words otherwise; the counts of two values differ by at most one. -/
theorem hits_near_uniform (min max : Int) (hmin : isInt64 min) (hmax : isInt64 max)
    (hlt : min < max) (hfull : max - min + 1 < 18446744073709551616)
    (v : Int) (hv1 : min ≤ v) (hv2 : v ≤ max) :
    (∀ n : Nat, randomIntWord min max n
      = Except.ok (min + Int.ofNat (n % (max - min + 1).toNat))) ∧
    hits min max v = word64 / (max - min + 1).toNat
      + (if (v - min).toNat < word64 % (max - min + 1).toNat then 1 else 0) ∧
    (∀ u : Int, min ≤ u → u ≤ max →
      hits min max v ≤ hits min max u + 1 ∧ hits min max u ≤ hits min max v + 1) := by
  refine ⟨randomIntWord_eq min max hmin hmax hlt hfull,
    hits_formula min max hmin hmax hlt hfull v hv1 hv2, ?_⟩
  intro u hu1 hu2
  rw [hits_formula min max hmin hmax hlt hfull v hv1 hv2,
    hits_formula min max hmin hmax hlt hfull u hu1 hu2]
  constructor <;> split_ifs <;> omega

theorem hits_near_uniform_witness :
    hits 1 10000 1617 = word64 / ((10000 : Int) - 1 + 1).toNat
      + (if ((1617 : Int) - 1).toNat < word64 % ((10000 : Int) - 1 + 1).toNat then 1 else 0) :=
  (hits_near_uniform 1 10000 (by decide) (by decide) (by decide) (by decide) 1617
    (by decide) (by decide)).2.1

/-! ## Theorems: broker list -/

theorem slice_ne_nil (s : GoString) (lo hi : Nat) (h : hi ≤ s.length) :
    slice s lo hi ≠ [] ↔ lo < hi := by
  rw [← List.length_pos]
  simp only [slice, List.length_take, List.length_drop]
  omega

/-- Loop invariant of `splitComma` after the indices below `i`: no comma lies
between `start` and `i`, and a non-empty field has been cut off exactly when a
byte other than a comma lies before `start`. -/
theorem splitComma_invariant (s : GoString) (i : Nat) (hi : i ≤ s.length) :
    ((List.range i).foldl (splitCommaBody s) ([], 0)).2 ≤ i ∧
    (∀ j, ((List.range i).foldl (splitCommaBody s) ([], 0)).2 ≤ j → j < i →
      s.get? j ≠ some comma) ∧
    ((∃ f ∈ ((List.range i).foldl (splitCommaBody s) ([], 0)).1, f ≠ []) ↔
      ∃ j, j < ((List.range i).foldl (splitCommaBody s) ([], 0)).2 ∧ j < s.length ∧
        s.get? j ≠ some comma) := by
  induction i with
  | zero => simp
  | succ i ih =>
    obtain ⟨h1, h2, h3⟩ := ih (by omega)
    rw [List.range_succ, List.foldl_append]
    generalize (List.range i).foldl (splitCommaBody s) ([], 0) = st at h1 h2 h3 ⊢
    obtain ⟨parts, start⟩ := st
    simp only [List.foldl_cons, List.foldl_nil, splitCommaBody] at h1 h2 h3 ⊢
    by_cases hc : s.get? i = some comma
    · rw [if_pos hc]
      refine ⟨le_refl _, fun j hj1 hj2 => absurd hj1 (by omega), ?_⟩
      constructor
      · rintro ⟨f, hf, hne⟩
        rcases List.mem_append.mp hf with hp | hs
        · obtain ⟨j, hj1, hj2, hj3⟩ := h3.mp ⟨f, hp, hne⟩
          exact ⟨j, by omega, hj2, hj3⟩
        · rw [List.mem_singleton] at hs
          subst hs
          have hlt : start < i := (slice_ne_nil s start i (by omega)).mp hne
          exact ⟨start, by omega, by omega, h2 start (le_refl _) hlt⟩
      · rintro ⟨j, hj1, hj2, hj3⟩
        have hji : j ≠ i := fun e => hj3 (e ▸ hc)
        by_cases hjs : j < start
        · obtain ⟨f, hf, hne⟩ := h3.mpr ⟨j, hjs, hj2, hj3⟩
          exact ⟨f, List.mem_append.mpr (Or.inl hf), hne⟩
        · exact ⟨slice s start i, List.mem_append.mpr (Or.inr (List.mem_singleton.mpr rfl)),
            (slice_ne_nil s start i (by omega)).mpr (by omega)⟩
    · rw [if_neg hc]
      refine ⟨by omega, ?_, h3⟩
      intro j hj1 hj2
      by_cases hji : j = i
      · exact hji ▸ hc
      · exact h2 j hj1 (by omega)

/-- The address list `newWriter` builds is non-empty exactly when the broker
string holds a byte other than a comma. -/
theorem newWriter_addr_ne_nil_iff (brokers topic : GoString) :
    (newWriter brokers topic).addr ≠ [] ↔ ∃ b ∈ brokers, b ≠ comma := by
  obtain ⟨h1, h2, h3⟩ := splitComma_invariant brokers brokers.length (le_refl _)
  simp only [newWriter, splitComma]
  generalize (List.range brokers.length).foldl (splitCommaBody brokers) ([], 0) = st
    at h1 h2 h3 ⊢
  obtain ⟨parts, start⟩ := st
  simp only at h1 h2 h3 ⊢
  have hget : ∀ j, j < brokers.length → brokers.get? j ≠ some comma →
      ∃ b ∈ brokers, b ≠ comma := by
    intro j hj hne
    refine ⟨brokers.get ⟨j, hj⟩, List.get_mem _ _ _, ?_⟩
    intro e
    exact hne (by rw [List.get?_eq_get hj, e])
  rw [Ne, List.filter_eq_nil_iff]
  constructor
  · intro hall
    by_contra hno
    apply hall
    intro f hf
    simp only [decide_eq_true_eq, not_not]
    by_contra hne
    rcases List.mem_append.mp hf with hp | hs
    · obtain ⟨j, _, hj2, hj3⟩ := h3.mp ⟨f, hp, hne⟩
      exact hno (hget j hj2 hj3)
    · rw [List.mem_singleton] at hs
      subst hs
      have hlt : start < brokers.length :=
        (slice_ne_nil brokers start brokers.length (le_refl _)).mp hne
      exact hno (hget start hlt (h2 start (le_refl _) hlt))
  · rintro ⟨b, hb, hne⟩ hall
    obtain ⟨j, hj⟩ := List.mem_iff_get?.mp hb
    have hjl : j < brokers.length := (List.get?_eq_some.mp hj).1
    have hjc : brokers.get? j ≠ some comma := by
      rw [hj]
      simpa using hne
    by_cases hjs : j < start
    · obtain ⟨f, hf, hfne⟩ := h3.mpr ⟨j, hjs, hjl, hjc⟩
      have := hall f (List.mem_append.mpr (Or.inl hf))
      simp only [decide_eq_true_eq, not_not] at this
      exact hfne this
    · have := hall (slice brokers start brokers.length)
        (List.mem_append.mpr (Or.inr (List.mem_singleton.mpr rfl)))
      simp only [decide_eq_true_eq, not_not] at this
      exact (slice_ne_nil brokers start brokers.length (le_refl _)).mpr (by omega) this

/-- C10, as stated, fails: `validate` accepts the non-demo configuration with
brokers `","` and topic `"t"`, yet `newWriter` hands the Kafka writer an empty
address list. -/
theorem comma_brokers_empty_addr :
    validate commaConfig = none ∧ commaConfig.demo = false ∧
    splitComma commaConfig.brokers = [[], []] ∧
    (newWriter commaConfig.brokers commaConfig.topic).addr = [] := by
  decide

/-- C10, amended: for every non-demo configuration `validate` accepts, the
writer `main` builds has the non-empty `cfg.topic` as its topic and the
non-empty fields of `splitComma cfg.brokers` as its address list, and that list
is non-empty exactly when `cfg.brokers` holds a byte other than a comma. -/
theorem newWriter_of_accepted (cfg : config) (hv : validate cfg = none)
    (hd : cfg.demo = false) :
    writerOf cfg = some (newWriter cfg.brokers cfg.topic) ∧
    (newWriter cfg.brokers cfg.topic).topic = cfg.topic ∧
    cfg.topic ≠ [] ∧
    (newWriter cfg.brokers cfg.topic).addr
      = (splitComma cfg.brokers).filter (fun b => decide (b ≠ [])) ∧
    (∀ a ∈ (newWriter cfg.brokers cfg.topic).addr, a ≠ []) ∧
    ((newWriter cfg.brokers cfg.topic).addr ≠ [] ↔ ∃ b ∈ cfg.brokers, b ≠ comma) := by
  have hacc := (validate_accepts_iff_aux cfg).mp hv
  have htopic : cfg.topic ≠ [] := by
    rcases hacc.2.2 with h | h
    · rw [hd] at h
      exact absurd h (by simp)
    · exact h.2
  refine ⟨by simp [writerOf, hd], rfl, htopic, rfl, ?_,
    newWriter_addr_ne_nil_iff cfg.brokers cfg.topic⟩
  intro a ha
  simp only [newWriter, List.mem_filter, decide_eq_true_eq] at ha
  exact ha.2

theorem newWriter_of_accepted_witness :
    writerOf sampleKafkaConfig
      = some (newWriter sampleKafkaConfig.brokers sampleKafkaConfig.topic) ∧
    (newWriter sampleKafkaConfig.brokers sampleKafkaConfig.topic).topic
      = sampleKafkaConfig.topic ∧
    sampleKafkaConfig.topic ≠ [] :=
  ⟨(newWriter_of_accepted sampleKafkaConfig (by decide) rfl).1,
    (newWriter_of_accepted sampleKafkaConfig (by decide) rfl).2.1,
    (newWriter_of_accepted sampleKafkaConfig (by decide) rfl).2.2.1⟩

end QueueProcessing

